import Mathlib

/-!
Verification development for the IREPS tender-scraper repository.

The Python modules are shallowly embedded as pure Lean functions:

* `change_detector.py` — tender dicts become ordered association lists
  from string keys to `Val` values (`Val` covers the value shapes the
  code stores: strings, `None`, attached-document lists, and the
  `_changes` map); `ChangeDetector._diff`, `detect_changes` and the
  attached-document merge of `update_memory` are translated directly.
* `scraper.py` — the row-validation of `_parse_row_cells`, the Phase-2
  per-record loop of `_scrape_details` (circuit breaker, session-expiry
  and crash early-returns, per-record mutations) and the Phase-1/Phase-2
  degradation of `scrape_tenders`.  Browser interaction itself is
  abstracted into a per-record `RowOutcome` supplied by the environment.
* `login.py` — the bounded attempt loop of `_perform_login`.
* `otp_receiver.py` — the ticket cell of `OTPReceiver` with its
  registration instant and strict-timestamp acceptance check.
-/

namespace Ireps

/-- One attached-document descriptor as produced by `_extract_attached_docs`
    and stored in memory: `{"file_name", "file_url", "description"}`.
    A missing or falsy `file_url` is modelled as the empty string. -/
structure Doc where
  file_name : String
  file_url : String
  description : String
deriving DecidableEq, Repr

/-- The value shapes a tender dict holds in the source: plain strings,
    Python `None` (`tender_doc_download_url`), the `attached_documents`
    list, and the `_changes` map written for UPDATED tenders. -/
inductive Val where
  | str (s : String)
  | null
  | docs (ds : List Doc)
  | changeMap (cs : List (String × String × String))
deriving DecidableEq, Repr

/-- Python `repr` of a simple string (single-quoted). -/
def pyReprStr (s : String) : String := "\x27" ++ s ++ "\x27"

/-- Python `str`/`repr` of one attached-document dict. -/
def pyReprDoc (d : Doc) : String :=
  "\x7b\x27file_name\x27: " ++ pyReprStr d.file_name ++
  ", \x27file_url\x27: " ++ pyReprStr d.file_url ++
  ", \x27description\x27: " ++ pyReprStr d.description ++ "\x7d"

/-- Python `str` of one `_changes` entry `key: {"old": v, "new": v}`. -/
def pyReprChange (c : String × String × String) : String :=
  pyReprStr c.1 ++ ": \x7b\x27old\x27: " ++ pyReprStr c.2.1 ++
  ", \x27new\x27: " ++ pyReprStr c.2.2 ++ "\x7d"

/-- Python `str()` applied to a stored value, as `_diff` does via
    `str(old.get(key, ""))`.  `str(None) = "None"`, lists/dicts print
    their repr. -/
def pyStr : Val → String
  | .str s => s
  | .null => "None"
  | .docs ds => "[" ++ String.intercalate ", " (ds.map pyReprDoc) ++ "]"
  | .changeMap cs => "\x7b" ++ String.intercalate ", " (cs.map pyReprChange) ++ "\x7d"

/-- Python `str.strip()`: drop ASCII whitespace from both ends (written
    over the character list so it evaluates by kernel reduction). -/
def pyStrip (s : String) : String :=
  String.mk (((s.data.dropWhile Char.isWhitespace).reverse.dropWhile
    Char.isWhitespace).reverse)

/-- Python `str.lower()` (ASCII case folding, over the character list). -/
def pyLower (s : String) : String :=
  String.mk (s.data.map Char.toLower)

/-- Python `str.startswith(pre)` (over the character lists). -/
def pyStartsWith (s pre : String) : Bool :=
  pre.data.isPrefixOf s.data

/-- A tender dict: insertion-ordered association list with unique keys
    in every dict the source builds. -/
abbrev Record := List (String × Val)

/-- `d.get(k)` — first binding, if any. -/
def rget? : Record → String → Option Val
  | [], _ => none
  | p :: r, k => if p.1 = k then some p.2 else rget? r k

/-- `d.get(k, default)`. -/
def rgetD (r : Record) (k : String) (v : Val) : Val :=
  (rget? r k).getD v

/-- `k in d`. -/
def hasKey : Record → String → Bool
  | [], _ => false
  | p :: r, k => p.1 = k || hasKey r k

/-- `d[k] = v`: overwrite an existing binding in place, else append. -/
def rset (r : Record) (k : String) (v : Val) : Record :=
  if hasKey r k then r.map (fun p => if p.1 = k then (k, v) else p)
  else r ++ [(k, v)]

/-- `d.setdefault(k, v)`. -/
def rsetdefault (r : Record) (k : String) (v : Val) : Record :=
  if hasKey r k then r else r ++ [(k, v)]

/-- `d.keys()`. -/
def rkeys (r : Record) : List String := r.map (fun p => p.1)

/-! ## ChangeDetector (`change_detector.py`) -/

/-- The key set `set(old.keys()) | set(new.keys())` walked by `_diff`
    (iteration order of a Python set is unspecified; only membership in
    the resulting changes dict is relied upon). -/
def diffKeys (old new : Record) : List String :=
  (rkeys old ++ rkeys new).dedup

/-- `ChangeDetector._diff`: changed fields with trim-normalized old/new
    string values; internal keys (prefix `_`) and the navigation-only
    `detail_url` are skipped. -/
def diff (old new : Record) : List (String × String × String) :=
  (diffKeys old new).filterMap (fun k =>
    if pyStartsWith k "_" then none
    else if k = "detail_url" then none
    else
      let old_val := pyStrip (pyStr (rgetD old k (.str "")))
      let new_val := pyStrip (pyStr (rgetD new k (.str "")))
      if old_val ≠ new_val then some (k, old_val, new_val) else none)

/-- The persisted memory: `tender_no ↦ stored record`. -/
abbrev Memory := List (String × Record)

def memLookup : Memory → String → Option Record
  | [], _ => none
  | p :: m, k => if p.1 = k then some p.2 else memLookup m k

/-- `tender.get("tender_no", "").strip()` (the source only ever stores
    string identities; a non-string one would raise in Python). -/
def tenderNo (t : Record) : String :=
  pyStrip (pyStr (rgetD t "tender_no" (.str "")))

inductive BucketTag where
  | skipped | isNew | isUpdated | isStatusChanged | isUnchanged
deriving DecidableEq, Repr

/-- The per-tender body of the `detect_changes` loop: the (in-place
    mutated) record together with the bucket it is appended to. -/
def classifyStep (mem : Memory) (t : Record) : Record × BucketTag :=
  let tno := tenderNo t
  if tno = "" then (t, .skipped)
  else
    match memLookup mem tno with
    | none => (rset t "_change_type" (.str "NEW"), .isNew)
    | some old =>
      let changes := diff old t
      if changes = [] then
        (rset t "_change_type" (.str "UNCHANGED"), .isUnchanged)
      else if (changes.map (fun c => c.1)).contains "status" then
        (rset (rset (rset t "_change_type" (.str "STATUS_CHANGED"))
            "_old_status" (rgetD old "status" (.str "")))
            "_new_status" (rgetD t "status" (.str "")),
         .isStatusChanged)
      else
        (rset (rset t "_change_type" (.str "UPDATED"))
            "_changes" (.changeMap changes),
         .isUpdated)

structure Buckets where
  bnew : List Record
  bupdated : List Record
  bstatusChanged : List Record
  bunchanged : List Record
  ball : List Record
deriving DecidableEq, Repr

/-- The accumulation loop of `detect_changes` (appending in input order). -/
def detectLoop (mem : Memory) : List Record → Buckets
  | [] => ⟨[], [], [], [], []⟩
  | t :: ts =>
    let b := detectLoop mem ts
    let s := classifyStep mem t
    match s.2 with
    | .skipped => { b with ball := s.1 :: b.ball }
    | .isNew => { b with bnew := s.1 :: b.bnew, ball := s.1 :: b.ball }
    | .isUpdated => { b with bupdated := s.1 :: b.bupdated, ball := s.1 :: b.ball }
    | .isStatusChanged =>
        { b with bstatusChanged := s.1 :: b.bstatusChanged, ball := s.1 :: b.ball }
    | .isUnchanged => { b with bunchanged := s.1 :: b.bunchanged, ball := s.1 :: b.ball }

structure Summary where
  total_scraped : Nat
  new_count : Nat
  updated_count : Nat
  status_changed_count : Nat
  unchanged_count : Nat
  timestamp : String
deriving DecidableEq, Repr

structure Report where
  rnew : List Record
  rupdated : List Record
  rstatusChanged : List Record
  runchanged : List Record
  rall : List Record
  summary : Summary
deriving DecidableEq, Repr

/-- `ChangeDetector.detect_changes` (`now` is `datetime.now().isoformat()`). -/
def detectChanges (mem : Memory) (now : String) (tenders : List Record) : Report :=
  let b := detectLoop mem tenders
  { rnew := b.bnew
    rupdated := b.bupdated
    rstatusChanged := b.bstatusChanged
    runchanged := b.bunchanged
    rall := b.ball
    summary :=
      { total_scraped := tenders.length
        new_count := b.bnew.length
        updated_count := b.bupdated.length
        status_changed_count := b.bstatusChanged.length
        unchanged_count := b.bunchanged.length
        timestamp := now } }

/-! ### `update_memory` attached-document merge -/

/-- `{doc.get("file_url") for doc in docs if doc.get("file_url")}`. -/
def seenUrls (docs : List Doc) : List String :=
  (docs.filter (fun d => d.file_url ≠ "")).map (fun d => d.file_url)

/-- The `for doc in new_docs` append loop of `update_memory`. -/
def mergeLoop (merged : List Doc) (seen : List String) : List Doc → List Doc
  | [] => merged
  | d :: ds =>
    if d.file_url ≠ "" ∧ d.file_url ∉ seen then
      mergeLoop (merged ++ [d]) (d.file_url :: seen) ds
    else
      mergeLoop merged seen ds

/-- The attached-document update of `update_memory`: keep the old list if
    the new scrape returned none, union by `file_url` (old first, unseen
    new appended) when both are non-empty, else the new list. -/
def mergeAttachedDocs (old_docs new_docs : List Doc) : List Doc :=
  if new_docs = [] ∧ old_docs ≠ [] then old_docs
  else if new_docs ≠ [] ∧ old_docs ≠ [] then
    mergeLoop old_docs (seenUrls old_docs) new_docs
  else new_docs

/-! ## Listing harvester row validation (`scraper.py::_parse_row_cells`) -/

/-- `_JUNK_TENDER_NOS` of `_parse_row_cells`. -/
def JUNK_TENDER_NOS : List String :=
  ["Tender No", "tender no", "Search Tender", "Organization",
   "Select Date", "Tender Closing Date", "Tender Uploading Date",
   "Deptt./Rly. Unit", "Actions"]

/-- `_VALID_STATUSES` of `_parse_row_cells`. -/
def VALID_STATUSES : List String :=
  ["published", "active", "closed", "cancelled", "expired"]

/-- `_parse_row_cells` validation and dict construction.  The cell texts
    arrive already stripped by `_safe_cell_text`; the Actions-column
    `detail_url` extraction is navigation machinery and enters only as
    the resulting string. -/
def parseRowCells (deptt tender_no tender_title status work_area
    due_date due_days detail_url : String) : Option Record :=
  if tender_no = "" then none
  else if 50 < tender_no.length ∨ tender_no.data.contains '\n' then none
  else if tender_no ∈ JUNK_TENDER_NOS then none
  else if status ≠ "" ∧ pyLower status ∉ VALID_STATUSES then none
  else some
    [("deptt_rly_unit", .str deptt),
     ("tender_no", .str tender_no),
     ("tender_title", .str tender_title),
     ("status", .str status),
     ("work_area", .str work_area),
     ("due_date_time", .str due_date),
     ("due_days", .str due_days),
     ("detail_url", .str detail_url),
     ("tender_type", .str ""),
     ("date_of_issue", .str ""),
     ("estimated_value", .str ""),
     ("emd_amount", .str ""),
     ("document_cost", .str ""),
     ("contact_officer", .str ""),
     ("corrigendum", .str ""),
     ("description", .str ""),
     ("tender_doc_download_url", .null),
     ("attached_documents", .docs [])]

/-! ## Phase 2 detail enrichment (`scraper.py::_scrape_details`) -/

/-- What happened for one pending tender encountered on the listing
    during Phase 2, abstracting the browser environment:

    * `success detail docRes` — the detail tab opened and loaded within
      the retry budget; `detail` is the truthy label/value data merged by
      `tender.update`, `docRes` is `some (url, docs)` when document
      extraction succeeded and `none` when it raised (the
      `except doc_err` branch, which only `setdefault`s).
    * `iconMissing` — the View-Tender-Details icon was absent.
    * `retriesFailed` — every `config.MAX_RETRIES` click attempt raised.
    * `sessionExpired` — the detail page showed "Authenticate Yourself";
      the stage returns the tender list immediately.
    * `crashed` — a closed-browser/target error; immediate return. -/
inductive RowOutcome where
  | success (detail : List (String × String)) (docRes : Option (Option String × List Doc))
  | iconMissing
  | retriesFailed
  | sessionExpired
  | crashed
deriving DecidableEq, Repr

def toVal : Option String → Val
  | none => .null
  | some s => .str s

/-- `tender.update({k: v for k, v in detail_data.items() if v})`. -/
def applyDetail (t : Record) (detail : List (String × String)) : Record :=
  (detail.filter (fun p => p.2 ≠ "")).foldl (fun r p => rset r p.1 (.str p.2)) t

/-- Successful detail visit: merge detail fields, then either assign the
    extracted documents or (document extraction raised) `setdefault`. -/
def applySuccess (t : Record) (detail : List (String × String))
    (docRes : Option (Option String × List Doc)) : Record :=
  let t1 := applyDetail t detail
  match docRes with
  | some (u, ds) =>
      rset (rset t1 "tender_doc_download_url" (toVal u)) "attached_documents" (.docs ds)
  | none =>
      rsetdefault (rsetdefault t1 "tender_doc_download_url" .null)
        "attached_documents" (.docs [])

/-- The icon-missing branch assigns empty enrichment fields directly. -/
def applyIconMissing (t : Record) : Record :=
  rset (rset t "tender_doc_download_url" .null) "attached_documents" (.docs [])

/-- The all-retries-failed branch `setdefault`s empty enrichment fields. -/
def applyRetriesFailed (t : Record) : Record :=
  rsetdefault (rsetdefault t "tender_doc_download_url" .null)
    "attached_documents" (.docs [])

def MAX_CONSECUTIVE_FAILURES : Nat := 3

/-- The Phase-2 loop over pending tenders (in listing order), returning
    the full tender list as `_scrape_details` does on every path: the
    circuit-breaker check runs before each row, session expiry and
    browser crashes return everything immediately, and tenders the loop
    never reaches come back untouched. -/
def processDetails : Nat → List RowOutcome → List Record → List Record
  | _, _, [] => []
  | consec, os, t :: ts =>
    if MAX_CONSECUTIVE_FAILURES ≤ consec then t :: ts
    else
      match os with
      | [] => t :: ts
      | o :: os' =>
        match o with
        | .sessionExpired => t :: ts
        | .crashed => t :: ts
        | .success detail docRes =>
            applySuccess t detail docRes :: processDetails 0 os' ts
        | .iconMissing => applyIconMissing t :: processDetails (consec + 1) os' ts
        | .retriesFailed => applyRetriesFailed t :: processDetails (consec + 1) os' ts

/-- Reference loop without the circuit breaker, otherwise identical. -/
def processAllDetails : List RowOutcome → List Record → List Record
  | _, [] => []
  | [], t :: ts => t :: ts
  | o :: os', t :: ts =>
    match o with
    | .sessionExpired => t :: ts
    | .crashed => t :: ts
    | .success detail docRes =>
        applySuccess t detail docRes :: processAllDetails os' ts
    | .iconMissing => applyIconMissing t :: processAllDetails os' ts
    | .retriesFailed => applyRetriesFailed t :: processAllDetails os' ts

/-- `consecutive_failures` after one outcome: reset on success,
    incremented on a per-record failure. -/
def nextConsecutive (consec : Nat) : RowOutcome → Nat
  | .success _ _ => 0
  | .iconMissing => consec + 1
  | .retriesFailed => consec + 1
  | .sessionExpired => consec
  | .crashed => consec

/-- A per-record failure counted by the circuit breaker. -/
def RowOutcome.isFailure : RowOutcome → Bool
  | .iconMissing => true
  | .retriesFailed => true
  | _ => false

/-- The per-record mutation of a failing row. -/
def applyFailure (o : RowOutcome) (t : Record) : Record :=
  match o with
  | .iconMissing => applyIconMissing t
  | .retriesFailed => applyRetriesFailed t
  | _ => t

/-- The counter never reaches the limit along this outcome list. -/
def noTrip : Nat → List RowOutcome → Bool
  | _, [] => true
  | c, o :: os =>
    decide (c < MAX_CONSECUTIVE_FAILURES) && noTrip (nextConsecutive c o) os

/-- How the Phase-2 call inside `scrape_tenders` ended: either it raised
    (any exception, caught by the wrapper) or it ran its loop over the
    supplied per-record outcomes. -/
inductive Phase2Result where
  | raised
  | completed (os : List RowOutcome)

/-- `scrape_tenders`: empty listing short-circuits, a Phase-2 exception
    degrades to the Phase-1 data, otherwise the Phase-2 result. -/
def scrapeTenders (listing : List Record) (phase2 : Phase2Result) : List Record :=
  if listing = [] then []
  else
    match phase2 with
    | .raised => listing
    | .completed os => processDetails 0 os listing

/-- Harvested records carry the Phase-2 placeholders written by
    `_parse_row_cells`: `tender_doc_download_url = None` and
    `attached_documents = []`. -/
abbrev HarvestedFields (t : Record) : Prop :=
  rgetD t "tender_doc_download_url" (.str "") = .null
  ∧ rgetD t "attached_documents" (.str "") = .docs []

/-! ## Login attempt loop (`login.py::_perform_login`) -/

/-- How one login attempt ends:

    * `ok` — verification passed; the flow saves the session and returns.
    * `fail msg` — a `RuntimeError` (wrong CAPTCHA at the last attempt,
      OTP timeout, OTP rejected): caught by the loop, retried while
      attempts remain, re-raised otherwise.  An earlier-attempt CAPTCHA
      failure that merely `continue`s behaves identically.
    * `unexpected msg` — any non-`RuntimeError` exception: nothing
      catches it, so it aborts the flow at once. -/
inductive AttemptOutcome where
  | ok
  | fail (msg : String)
  | unexpected (msg : String)
deriving DecidableEq, Repr

/-- The `for attempt in range(1, max_login_attempts + 1)` loop; returns
    the run result together with the number of attempts initiated.
    `fuel` is the number of loop iterations left (`max - attempt + 1`). -/
def loginGo (outcome : Nat → AttemptOutcome) (maxAttempts : Nat) :
    Nat → Nat → Except String Unit × Nat
  | _, 0 =>
    (.error ("IREPS login failed after " ++ toString maxAttempts ++ " attempts"), 0)
  | attempt, fuel + 1 =>
    match outcome attempt with
    | .ok => (.ok (), 1)
    | .unexpected msg => (.error msg, 1)
    | .fail msg =>
      if maxAttempts ≤ attempt then (.error msg, 1)
      else
        let r := loginGo outcome maxAttempts (attempt + 1) fuel
        (r.1, r.2 + 1)

/-- `_perform_login` (its callers keep the default `max_login_attempts=2`). -/
def performLogin (outcome : Nat → AttemptOutcome) (maxAttempts : Nat) :
    Except String Unit × Nat :=
  loginGo outcome maxAttempts 1 maxAttempts

/-! ## OTP coordinator (`otp_receiver.py::OTPReceiver`) -/

/-- The shared ticket cell: the latest extracted code with its arrival
    wall-clock time, the registration instant set by
    `clear_for_new_otp`, and the threading event. -/
structure OTPState where
  latest_otp : Option String
  otp_timestamp : ℚ
  otp_request_time : ℚ
  event : Bool
deriving DecidableEq

/-- The webhook handler storing an extracted (non-empty) code under the
    lock and setting the event. -/
def deliverOtp (s : OTPState) (otp : String) (now : ℚ) : OTPState :=
  { s with latest_otp := some otp, otp_timestamp := now, event := true }

/-- `clear_for_new_otp`: record the registration instant, clear the
    event; the stored ticket itself is kept. -/
def clearForNewOtp (s : OTPState) (now : ℚ) : OTPState :=
  { s with otp_request_time := now, event := false }

/-- `wait_for_otp` in unattended mode (own webhook server, headless so
    the manual-entry fallback is skipped): the already-arrived pre-check
    under the lock, then the event wait — `during` being the deliveries
    that land while blocking — then the strict-timestamp double-check;
    otherwise `None`. -/
def waitForOtp (s : OTPState) (during : List (String × ℚ)) : Option String :=
  let request_time := s.otp_request_time
  if s.latest_otp.isSome ∧ request_time < s.otp_timestamp then s.latest_otp
  else
    let s1 := during.foldl (fun st d => deliverOtp st d.1 d.2) s
    if s1.event ∧ s1.latest_otp.isSome ∧ request_time < s1.otp_timestamp then
      s1.latest_otp
    else none

/-! ## Helper lemmas: record operations -/

theorem rget?_append (r r' : Record) (k : String) :
    rget? (r ++ r') k = (rget? r k).or (rget? r' k) := by
  induction r with
  | nil => simp [rget?]
  | cons p r ih =>
    by_cases hp : p.1 = k <;> simp [rget?, hp, ih]

theorem rget?_map_replace (r : Record) (k : String) (v : Val)
    (h : hasKey r k = true) :
    rget? (r.map (fun p => if p.1 = k then (k, v) else p)) k = some v := by
  induction r with
  | nil => simp [hasKey] at h
  | cons p r ih =>
    by_cases hp : p.1 = k
    · simp [rget?, hp]
    · simp only [hasKey, Bool.or_eq_true, decide_eq_true_eq] at h
      rcases h with h | h
      · exact absurd h hp
      · simpa [rget?, hp] using ih h

theorem rget?_map_replace_ne (r : Record) (k k' : String) (v : Val)
    (h : k' ≠ k) :
    rget? (r.map (fun p => if p.1 = k then (k, v) else p)) k' = rget? r k' := by
  induction r with
  | nil => simp [rget?]
  | cons p r ih =>
    by_cases hp : p.1 = k
    · have h1 : ¬ (k = k') := fun hh => h hh.symm
      have h2 : ¬ (p.1 = k') := by rw [hp]; exact h1
      simp [rget?, hp, h1, h2, ih]
    · by_cases hp' : p.1 = k'
      · simp [rget?, hp, hp', h]
      · simp [rget?, hp, hp', ih]

theorem rget?_eq_none_of_not_hasKey (r : Record) (k : String)
    (h : hasKey r k = false) : rget? r k = none := by
  induction r with
  | nil => rfl
  | cons p r ih =>
    simp only [hasKey, Bool.or_eq_false_iff, decide_eq_false_iff_not] at h
    simp [rget?, h.1, ih h.2]

theorem rget?_rset_self (r : Record) (k : String) (v : Val) :
    rget? (rset r k v) k = some v := by
  unfold rset
  by_cases h : hasKey r k
  · simp [h, rget?_map_replace r k v h]
  · simp only [Bool.not_eq_true] at h
    simp [h, rget?_append, rget?_eq_none_of_not_hasKey r k h, rget?]

theorem rget?_rset_ne (r : Record) (k k' : String) (v : Val) (h : k' ≠ k) :
    rget? (rset r k v) k' = rget? r k' := by
  unfold rset
  by_cases hk : hasKey r k
  · simp [hk, rget?_map_replace_ne r k k' v h]
  · have h1 : ¬ (k = k') := fun hh => h hh.symm
    simp [hk, rget?_append, rget?, h1]

theorem rgetD_rset_self (r : Record) (k : String) (v d : Val) :
    rgetD (rset r k v) k d = v := by
  simp [rgetD, rget?_rset_self]

theorem rgetD_rset_ne (r : Record) (k k' : String) (v d : Val) (h : k' ≠ k) :
    rgetD (rset r k v) k' d = rgetD r k' d := by
  simp [rgetD, rget?_rset_ne r k k' v h]

theorem hasKey_of_rget? (r : Record) (k : String) (v : Val)
    (h : rget? r k = some v) : hasKey r k = true := by
  induction r with
  | nil => simp [rget?] at h
  | cons p r ih =>
    by_cases hp : p.1 = k
    · simp [hasKey, hp]
    · simp only [rget?, hp, if_false] at h
      simp [hasKey, hp, ih h]

theorem rsetdefault_of_hasKey (r : Record) (k : String) (v : Val)
    (h : hasKey r k = true) : rsetdefault r k v = r := by
  simp [rsetdefault, h]

theorem rget?_of_rgetD_ne_default (r : Record) (k : String) (v d : Val)
    (hv : rgetD r k d = v) (hne : v ≠ d) : rget? r k = some v := by
  unfold rgetD at hv
  rcases hget : rget? r k with _ | w
  · rw [hget] at hv; simp at hv; exact absurd hv.symm hne
  · rw [hget] at hv; simp at hv; rw [hv]

/-! ## Helper lemmas: change detection -/

/-- The `_change_type` string written for each bucket. -/
def tagName : BucketTag → String
  | .skipped => ""
  | .isNew => "NEW"
  | .isUpdated => "UPDATED"
  | .isStatusChanged => "STATUS_CHANGED"
  | .isUnchanged => "UNCHANGED"

/-- The bucket list a tag selects. -/
def bucketOfTag (b : Buckets) : BucketTag → List Record
  | .skipped => []
  | .isNew => b.bnew
  | .isUpdated => b.bupdated
  | .isStatusChanged => b.bstatusChanged
  | .isUnchanged => b.bunchanged

theorem classifyStep_skipped_iff (mem : Memory) (t : Record) :
    (classifyStep mem t).2 = .skipped ↔ tenderNo t = "" := by
  unfold classifyStep
  by_cases h : tenderNo t = ""
  · simp [h]
  · simp only [h, if_false]
    split
    · simp [h]
    · split
      · simp [h]
      · split
        · simp [h]
        · simp [h]

theorem classifyStep_change_type (mem : Memory) (t : Record)
    (h : (classifyStep mem t).2 ≠ .skipped) :
    rgetD (classifyStep mem t).1 "_change_type" (.str "")
      = .str (tagName (classifyStep mem t).2) := by
  have hno : ¬ (tenderNo t = "") := fun hh =>
    h ((classifyStep_skipped_iff mem t).mpr hh)
  unfold classifyStep
  simp only [hno, if_false]
  split
  · simp [tagName, rgetD_rset_self]
  · split
    · simp [tagName, rgetD_rset_self]
    · split
      · have h1 : ("_change_type" : String) ≠ "_new_status" := by decide
        have h2 : ("_change_type" : String) ≠ "_old_status" := by decide
        simp [tagName, rgetD_rset_ne _ _ _ _ _ h1,
          rgetD_rset_ne _ _ _ _ _ h2, rgetD_rset_self]
      · have h1 : ("_change_type" : String) ≠ "_changes" := by decide
        simp [tagName, rgetD_rset_ne _ _ _ _ _ h1, rgetD_rset_self]

theorem detectLoop_ball (mem : Memory) (ts : List Record) :
    (detectLoop mem ts).ball = ts.map (fun t => (classifyStep mem t).1) := by
  induction ts with
  | nil => rfl
  | cons t ts ih =>
    simp only [detectLoop, List.map_cons]
    rcases htag : (classifyStep mem t).2 <;> simp [htag, ih]

theorem bucketOfTag_detectLoop_cons (mem : Memory) (u : Record)
    (ts : List Record) (tag : BucketTag) (htag : tag ≠ .skipped) :
    bucketOfTag (detectLoop mem (u :: ts)) tag
      = if (classifyStep mem u).2 = tag
        then (classifyStep mem u).1 :: bucketOfTag (detectLoop mem ts) tag
        else bucketOfTag (detectLoop mem ts) tag := by
  simp only [detectLoop]
  rcases hu : (classifyStep mem u).2 <;> rcases tag <;>
    simp_all [bucketOfTag]

theorem mem_bucketOfTag_of_classify (mem : Memory) (ts : List Record)
    (t : Record) (ht : t ∈ ts) (htag : (classifyStep mem t).2 ≠ .skipped) :
    (classifyStep mem t).1
      ∈ bucketOfTag (detectLoop mem ts) (classifyStep mem t).2 := by
  induction ts with
  | nil => simp at ht
  | cons u ts ih =>
    rw [bucketOfTag_detectLoop_cons mem u ts _ htag]
    rcases List.mem_cons.mp ht with heq | hmem
    · subst heq
      rw [if_pos rfl]
      exact List.mem_cons_self _ _
    · by_cases he : (classifyStep mem u).2 = (classifyStep mem t).2
      · rw [if_pos he]
        exact List.mem_cons_of_mem _ (ih hmem)
      · rw [if_neg he]
        exact ih hmem

theorem of_mem_bucketOfTag (mem : Memory) (ts : List Record)
    (tag : BucketTag) (t' : Record) (htag : tag ≠ .skipped)
    (h : t' ∈ bucketOfTag (detectLoop mem ts) tag) :
    ∃ t ∈ ts, classifyStep mem t = (t', tag) := by
  induction ts with
  | nil => rcases tag <;> simp [detectLoop, bucketOfTag] at h
  | cons u ts ih =>
    rw [bucketOfTag_detectLoop_cons mem u ts _ htag] at h
    by_cases he : (classifyStep mem u).2 = tag
    · rw [if_pos he] at h
      rcases List.mem_cons.mp h with heq | hmem
      · exact ⟨u, List.mem_cons_self u ts,
          by rw [Prod.ext_iff]; exact ⟨heq.symm, he⟩⟩
      · rcases ih hmem with ⟨t, htmem, htc⟩
        exact ⟨t, List.mem_cons_of_mem u htmem, htc⟩
    · rw [if_neg he] at h
      rcases ih h with ⟨t, htmem, htc⟩
      exact ⟨t, List.mem_cons_of_mem u htmem, htc⟩

/-- Every member of a non-skipped bucket carries that bucket's
    `_change_type` value. -/
theorem change_type_of_mem_bucket (mem : Memory) (ts : List Record)
    (tag : BucketTag) (t' : Record)
    (htag : tag ≠ .skipped)
    (h : t' ∈ bucketOfTag (detectLoop mem ts) tag) :
    rgetD t' "_change_type" (.str "") = .str (tagName tag) := by
  rcases of_mem_bucketOfTag mem ts tag t' htag h with ⟨t, _, htc⟩
  have h2 : (classifyStep mem t).2 = tag := by rw [htc]
  have h1 : (classifyStep mem t).1 = t' := by rw [htc]
  have := classifyStep_change_type mem t (by rw [h2]; exact htag)
  rw [h1, h2] at this
  exact this

theorem detectLoop_length_sum (mem : Memory) (ts : List Record) :
    (detectLoop mem ts).bnew.length + (detectLoop mem ts).bupdated.length
      + (detectLoop mem ts).bstatusChanged.length
      + (detectLoop mem ts).bunchanged.length
      = (ts.filter (fun t => tenderNo t ≠ "")).length := by
  induction ts with
  | nil => rfl
  | cons t ts ih =>
    simp only [detectLoop, List.filter_cons]
    by_cases h : tenderNo t = ""
    · have hsk : (classifyStep mem t).2 = .skipped :=
        (classifyStep_skipped_iff mem t).mpr h
      simp [hsk, h, ih]
    · have hsk : (classifyStep mem t).2 ≠ .skipped := fun hh =>
        h ((classifyStep_skipped_iff mem t).mp hh)
      rcases htag : (classifyStep mem t).2 <;> simp_all [htag, ih] <;> omega

/-- If every comparable field is trim-equal on both sides, `_diff` is empty. -/
theorem diff_eq_nil_of_trim_eq (old t : Record)
    (heq : ∀ k : String, pyStartsWith k "_" = false → k ≠ "detail_url" →
      pyStrip (pyStr (rgetD old k (.str "")))
        = pyStrip (pyStr (rgetD t k (.str "")))) :
    diff old t = [] := by
  unfold diff
  rw [List.filterMap_eq_nil_iff]
  intro k _
  by_cases h1 : pyStartsWith k "_" = true
  · simp [h1]
  · by_cases h2 : k = "detail_url"
    · simp [h1, h2]
    · have h3 := heq k (by simpa using h1) h2
      simp [h1, h2, h3]

/-! ## Helper lemmas: attached-document merge -/

theorem seenUrls_append (a b : List Doc) :
    seenUrls (a ++ b) = seenUrls a ++ seenUrls b := by
  simp [seenUrls]

/-- The seen-set faithfully mirrors the truthy urls of the accumulator. -/
def SeenInv (m : List Doc) (s : List String) : Prop :=
  ∀ u, u ∈ s ↔ u ∈ seenUrls m

theorem seenInv_self (m : List Doc) : SeenInv m (seenUrls m) :=
  fun _ => Iff.rfl

theorem seenInv_push (m : List Doc) (s : List String) (d : Doc)
    (hinv : SeenInv m s) (hd : d.file_url ≠ "") :
    SeenInv (m ++ [d]) (d.file_url :: s) := by
  intro u
  rw [seenUrls_append]
  have hone : seenUrls [d] = [d.file_url] := by simp [seenUrls, hd]
  rw [hone]
  simp only [List.mem_cons, List.mem_append, List.mem_singleton]
  rw [hinv u]
  tauto

theorem mergeLoop_append (m : List Doc) (s : List String) (ds : List Doc) :
    ∃ tail, mergeLoop m s ds = m ++ tail := by
  induction ds generalizing m s with
  | nil => exact ⟨[], by simp [mergeLoop]⟩
  | cons d ds ih =>
    unfold mergeLoop
    by_cases h : d.file_url ≠ "" ∧ d.file_url ∉ s
    · rcases ih (m ++ [d]) (d.file_url :: s) with ⟨t, ht⟩
      exact ⟨[d] ++ t, by simp [h, ht]⟩
    · rcases ih m s with ⟨t, ht⟩
      exact ⟨t, by simp [h, ht]⟩

theorem mem_seenUrls_mergeLoop (m : List Doc) (s : List String)
    (ds : List Doc) (u : String) (h : u ∈ seenUrls m) :
    u ∈ seenUrls (mergeLoop m s ds) := by
  rcases mergeLoop_append m s ds with ⟨t, ht⟩
  rw [ht, seenUrls_append]
  exact List.mem_append_left _ h

theorem mergeLoop_covers (m : List Doc) (s : List String) (ds : List Doc)
    (hinv : SeenInv m s) :
    ∀ d ∈ ds, d.file_url ≠ "" → d.file_url ∈ seenUrls (mergeLoop m s ds) := by
  induction ds generalizing m s with
  | nil => intro d hd; simp at hd
  | cons e ds ih =>
    intro d hd hdu
    unfold mergeLoop
    by_cases he : e.file_url ≠ "" ∧ e.file_url ∉ s
    · rw [if_pos he]
      have hinv2 := seenInv_push m s e hinv he.1
      rcases List.mem_cons.mp hd with heq | hmem
      · subst heq
        apply mem_seenUrls_mergeLoop
        rw [seenUrls_append]
        simp [seenUrls, hdu]
      · exact ih (m ++ [e]) (e.file_url :: s) hinv2 d hmem hdu
    · rw [if_neg he]
      rcases List.mem_cons.mp hd with heq | hmem
      · subst heq
        have : d.file_url ∈ s := by
          rcases Decidable.not_and_iff_or_not.mp he with h1 | h1
          · exact absurd hdu (by simpa using h1)
          · simpa using h1
        exact mem_seenUrls_mergeLoop m s ds _ ((hinv _).mp this)
      · exact ih m s hinv d hmem hdu

theorem mergeLoop_noop (m : List Doc) (s : List String) (ds : List Doc)
    (h : ∀ d ∈ ds, d.file_url ≠ "" → d.file_url ∈ s) :
    mergeLoop m s ds = m := by
  induction ds generalizing m s with
  | nil => rfl
  | cons d ds ih =>
    unfold mergeLoop
    have hd : ¬ (d.file_url ≠ "" ∧ d.file_url ∉ s) := by
      intro ⟨h1, h2⟩
      exact h2 (h d (List.mem_cons_self d ds) h1)
    rw [if_neg hd]
    exact ih m s (fun e he => h e (List.mem_cons_of_mem d he))

theorem mergeLoop_nodup (m : List Doc) (s : List String) (ds : List Doc)
    (hinv : SeenInv m s) (hnd : (seenUrls m).Nodup) :
    (seenUrls (mergeLoop m s ds)).Nodup := by
  induction ds generalizing m s with
  | nil => exact hnd
  | cons d ds ih =>
    unfold mergeLoop
    by_cases hd : d.file_url ≠ "" ∧ d.file_url ∉ s
    · rw [if_pos hd]
      apply ih (m ++ [d]) (d.file_url :: s) (seenInv_push m s d hinv hd.1)
      rw [seenUrls_append]
      have hone : seenUrls [d] = [d.file_url] := by simp [seenUrls, hd.1]
      rw [hone]
      have hnotm : d.file_url ∉ seenUrls m := fun hh => hd.2 ((hinv _).mpr hh)
      simp [List.nodup_append, hnd, hnotm]
    · rw [if_neg hd]
      exact ih m s hinv hnd

/-! ## Helper lemmas: Phase-2 loop -/

theorem processDetails_stop (c : Nat) (os : List RowOutcome) (ts : List Record)
    (h : MAX_CONSECUTIVE_FAILURES ≤ c) : processDetails c os ts = ts := by
  cases ts with
  | nil => simp [processDetails]
  | cons t ts =>
    unfold processDetails
    rw [if_pos h]

theorem processDetails_eq_processAll (c : Nat) (os : List RowOutcome)
    (ts : List Record) (h : noTrip c os = true) :
    processDetails c os ts = processAllDetails os ts := by
  induction ts generalizing c os with
  | nil => cases os <;> rfl
  | cons t ts ih =>
    cases os with
    | nil =>
      by_cases hc : MAX_CONSECUTIVE_FAILURES ≤ c
      · simp [processDetails, processAllDetails, hc]
      · simp [processDetails, processAllDetails, hc]
    | cons o os =>
      simp only [noTrip, Bool.and_eq_true, decide_eq_true_eq] at h
      obtain ⟨hlt, hrest⟩ := h
      have hc : ¬ MAX_CONSECUTIVE_FAILURES ≤ c := by omega
      cases o with
      | success detail docRes =>
        simp only [nextConsecutive] at hrest
        simp [processDetails, processAllDetails, hc, ih 0 os hrest]
      | iconMissing =>
        simp only [nextConsecutive] at hrest
        simp [processDetails, processAllDetails, hc, ih (c + 1) os hrest]
      | retriesFailed =>
        simp only [nextConsecutive] at hrest
        simp [processDetails, processAllDetails, hc, ih (c + 1) os hrest]
      | sessionExpired => simp [processDetails, processAllDetails, hc]
      | crashed => simp [processDetails, processAllDetails, hc]

theorem applyIconMissing_fields (t : Record) :
    HarvestedFields (applyIconMissing t) := by
  have h1 : ("tender_doc_download_url" : String) ≠ "attached_documents" := by
    decide
  constructor
  · rw [applyIconMissing, rgetD_rset_ne _ _ _ _ _ h1, rgetD_rset_self]
  · rw [applyIconMissing, rgetD_rset_self]

theorem hasKey_of_harvested (t : Record) (h : HarvestedFields t) :
    hasKey t "tender_doc_download_url" = true
      ∧ hasKey t "attached_documents" = true := by
  constructor
  · exact hasKey_of_rget? _ _ _
      (rget?_of_rgetD_ne_default _ _ _ _ h.1 (by simp))
  · exact hasKey_of_rget? _ _ _
      (rget?_of_rgetD_ne_default _ _ _ _ h.2 (by simp))

theorem applyRetriesFailed_eq_self (t : Record) (h : HarvestedFields t) :
    applyRetriesFailed t = t := by
  rcases hasKey_of_harvested t h with ⟨h1, h2⟩
  rw [applyRetriesFailed, rsetdefault_of_hasKey _ _ _ h1,
    rsetdefault_of_hasKey _ _ _ h2]

theorem processDetails_shape (c : Nat) (os : List RowOutcome)
    (ts : List Record) (h : ∀ t ∈ ts, HarvestedFields t) :
    (processDetails c os ts).length = ts.length
    ∧ ∀ t' ∈ processDetails c os ts,
        (∃ t ∈ ts, ∃ detail docRes, t' = applySuccess t detail docRes)
        ∨ HarvestedFields t' := by
  induction ts generalizing c os with
  | nil =>
    refine ⟨by simp [processDetails], ?_⟩
    intro t' ht'
    simp [processDetails] at ht'
  | cons t ts ih =>
    have hh := h t (List.mem_cons_self t ts)
    have htail : ∀ u ∈ ts, HarvestedFields u :=
      fun u hu => h u (List.mem_cons_of_mem t hu)
    have huntouched :
        ∀ t' ∈ t :: ts,
          (∃ u ∈ t :: ts, ∃ detail docRes, t' = applySuccess u detail docRes)
          ∨ HarvestedFields t' :=
      fun t' ht' => Or.inr (h t' ht')
    by_cases hc : MAX_CONSECUTIVE_FAILURES ≤ c
    · rw [processDetails_stop _ _ _ hc]
      exact ⟨rfl, huntouched⟩
    · cases os with
      | nil => exact ⟨by simp [processDetails, hc], by
          simpa [processDetails, hc] using huntouched⟩
      | cons o os =>
        cases o with
        | success detail docRes =>
          rcases ih 0 os htail with ⟨hlen, hmem⟩
          refine ⟨by simp [processDetails, hc, hlen], ?_⟩
          intro t' ht'
          simp only [processDetails, hc, if_false] at ht'
          rcases List.mem_cons.mp ht' with heq | hmem2
          · exact Or.inl ⟨t, List.mem_cons_self t ts, detail, docRes, heq⟩
          · rcases hmem t' hmem2 with ⟨u, hu, rest⟩ | hf
            · exact Or.inl ⟨u, List.mem_cons_of_mem t hu, rest⟩
            · exact Or.inr hf
        | iconMissing =>
          rcases ih (c + 1) os htail with ⟨hlen, hmem⟩
          refine ⟨by simp [processDetails, hc, hlen], ?_⟩
          intro t' ht'
          simp only [processDetails, hc, if_false] at ht'
          rcases List.mem_cons.mp ht' with heq | hmem2
          · exact Or.inr (heq ▸ applyIconMissing_fields t)
          · rcases hmem t' hmem2 with ⟨u, hu, rest⟩ | hf
            · exact Or.inl ⟨u, List.mem_cons_of_mem t hu, rest⟩
            · exact Or.inr hf
        | retriesFailed =>
          rcases ih (c + 1) os htail with ⟨hlen, hmem⟩
          refine ⟨by simp [processDetails, hc, hlen], ?_⟩
          intro t' ht'
          simp only [processDetails, hc, if_false] at ht'
          rcases List.mem_cons.mp ht' with heq | hmem2
          · refine Or.inr ?_
            rw [heq, applyRetriesFailed_eq_self t hh]
            exact hh
          · rcases hmem t' hmem2 with ⟨u, hu, rest⟩ | hf
            · exact Or.inl ⟨u, List.mem_cons_of_mem t hu, rest⟩
            · exact Or.inr hf
        | sessionExpired =>
          exact ⟨by simp [processDetails, hc], by
            simpa [processDetails, hc] using huntouched⟩
        | crashed =>
          exact ⟨by simp [processDetails, hc], by
            simpa [processDetails, hc] using huntouched⟩

/-! ## Helper lemmas: login loop -/

theorem loginGo_attempts_le (outcome : Nat → AttemptOutcome)
    (maxA fuel attempt : Nat) :
    (loginGo outcome maxA attempt fuel).2 ≤ fuel := by
  induction fuel generalizing attempt with
  | zero => simp [loginGo]
  | succ fuel ih =>
    unfold loginGo
    cases outcome attempt with
    | ok => simp
    | unexpected msg => simp
    | fail msg =>
      by_cases hm : maxA ≤ attempt
      · simp [hm]
      · simp only [hm, if_false]
        have := ih (attempt + 1)
        simpa using Nat.add_le_add_right this 1

/-! ## Additional small lemmas -/

theorem hasKey_rset_self (r : Record) (k : String) (v : Val) :
    hasKey (rset r k v) k = true :=
  hasKey_of_rget? _ _ _ (rget?_rset_self r k v)

theorem rget?_isSome_of_hasKey (r : Record) (k : String)
    (h : hasKey r k = true) : ∃ v, rget? r k = some v := by
  induction r with
  | nil => simp [hasKey] at h
  | cons p r ih =>
    by_cases hp : p.1 = k
    · exact ⟨p.2, by simp [rget?, hp]⟩
    · simp only [hasKey, Bool.or_eq_true, decide_eq_true_eq] at h
      rcases h with h | h
      · exact absurd h hp
      · rcases ih h with ⟨v, hv⟩
        exact ⟨v, by simp [rget?, hp, hv]⟩

theorem hasKey_rset_preserve (r : Record) (k k' : String) (v : Val)
    (h : hasKey r k' = true) : hasKey (rset r k v) k' = true := by
  by_cases hk : k' = k
  · subst hk; exact hasKey_rset_self r k' v
  · rcases rget?_isSome_of_hasKey r k' h with ⟨w, hw⟩
    exact hasKey_of_rget? _ _ w (by rw [rget?_rset_ne r k k' v hk]; exact hw)

theorem mem_seenUrls_of_mem (m : List Doc) (d : Doc) (hd : d ∈ m)
    (hu : d.file_url ≠ "") : d.file_url ∈ seenUrls m := by
  simp only [seenUrls, List.mem_map, List.mem_filter]
  exact ⟨d, ⟨hd, by simpa using hu⟩, rfl⟩

theorem tagName_injective (t1 t2 : BucketTag) (h1 : t1 ≠ .skipped)
    (h2 : t2 ≠ .skipped) (hne : t1 ≠ t2) : tagName t1 ≠ tagName t2 := by
  rcases t1 <;> rcases t2 <;> simp_all [tagName]

theorem buckets_disjoint (mem : Memory) (ts : List Record)
    (tag1 tag2 : BucketTag) (h1 : tag1 ≠ .skipped) (h2 : tag2 ≠ .skipped)
    (hne : tag1 ≠ tag2) (x : Record) :
    ¬ (x ∈ bucketOfTag (detectLoop mem ts) tag1
        ∧ x ∈ bucketOfTag (detectLoop mem ts) tag2) := by
  intro ⟨hx1, hx2⟩
  have e1 := change_type_of_mem_bucket mem ts tag1 x h1 hx1
  have e2 := change_type_of_mem_bucket mem ts tag2 x h2 hx2
  rw [e1] at e2
  exact tagName_injective tag1 tag2 h1 h2 hne (Val.str.inj e2)

/-! ## Claim theorems -/

/-- C5: `update_memory` merges each record's attached-document collection
with the snapshot entry's collection as a union keyed by `file_url` with
insertion order preserved (existing entries first, unseen new entries
appended), and the merge is idempotent: committing the same document set
twice produces no duplicate `file_url` entries and preserves the original
insertion order. -/
theorem update_memory_doc_merge_idempotent (old_docs new_docs : List Doc)
    (h1 : (seenUrls old_docs).Nodup) (h2 : (seenUrls new_docs).Nodup) :
    mergeAttachedDocs (mergeAttachedDocs old_docs new_docs) new_docs
      = mergeAttachedDocs old_docs new_docs
    ∧ (∃ tail, mergeAttachedDocs old_docs new_docs = old_docs ++ tail)
    ∧ (seenUrls (mergeAttachedDocs old_docs new_docs)).Nodup := by
  by_cases hn : new_docs = []
  · by_cases ho : old_docs = []
    · subst hn; subst ho
      refine ⟨rfl, ⟨[], rfl⟩, by simp [mergeAttachedDocs, seenUrls]⟩
    · subst hn
      have hm : mergeAttachedDocs old_docs [] = old_docs := by
        rw [mergeAttachedDocs, if_pos ⟨rfl, ho⟩]
      rw [hm]
      exact ⟨hm, ⟨[], by simp⟩, h1⟩
  · by_cases ho : old_docs = []
    · subst ho
      have hm : mergeAttachedDocs [] new_docs = new_docs := by
        rw [mergeAttachedDocs, if_neg (by simp), if_neg (by simp)]
      rw [hm]
      refine ⟨?_, ⟨new_docs, by simp⟩, h2⟩
      rw [mergeAttachedDocs, if_neg (by simp [hn]), if_pos ⟨hn, hn⟩]
      exact mergeLoop_noop _ _ _
        (fun d hd hdu => mem_seenUrls_of_mem new_docs d hd hdu)
    · have hm : mergeAttachedDocs old_docs new_docs
          = mergeLoop old_docs (seenUrls old_docs) new_docs := by
        rw [mergeAttachedDocs, if_neg (by simp [hn]), if_pos ⟨hn, ho⟩]
      rcases mergeLoop_append old_docs (seenUrls old_docs) new_docs with ⟨tail, htail⟩
      have hmn : mergeLoop old_docs (seenUrls old_docs) new_docs ≠ [] := by
        rw [htail]
        simp [ho]
      refine ⟨?_, ⟨tail, by rw [hm, htail]⟩, ?_⟩
      · rw [hm, mergeAttachedDocs, if_neg (by simp [hn]), if_pos ⟨hn, hmn⟩]
        exact mergeLoop_noop _ _ _
          (mergeLoop_covers old_docs (seenUrls old_docs) new_docs
            (seenInv_self old_docs))
      · rw [hm]
        exact mergeLoop_nodup _ _ _ (seenInv_self old_docs) h1

theorem update_memory_doc_merge_idempotent_witness :
    mergeAttachedDocs
        (mergeAttachedDocs [⟨"a.pdf", "u/a", "A"⟩, ⟨"b.pdf", "u/b", "B"⟩]
          [⟨"b.pdf", "u/b", "B"⟩, ⟨"c.pdf", "u/c", "C"⟩])
        [⟨"b.pdf", "u/b", "B"⟩, ⟨"c.pdf", "u/c", "C"⟩]
      = mergeAttachedDocs [⟨"a.pdf", "u/a", "A"⟩, ⟨"b.pdf", "u/b", "B"⟩]
          [⟨"b.pdf", "u/b", "B"⟩, ⟨"c.pdf", "u/c", "C"⟩]
    ∧ (∃ tail,
        mergeAttachedDocs [⟨"a.pdf", "u/a", "A"⟩, ⟨"b.pdf", "u/b", "B"⟩]
            [⟨"b.pdf", "u/b", "B"⟩, ⟨"c.pdf", "u/c", "C"⟩]
          = [⟨"a.pdf", "u/a", "A"⟩, ⟨"b.pdf", "u/b", "B"⟩] ++ tail)
    ∧ (seenUrls
        (mergeAttachedDocs [⟨"a.pdf", "u/a", "A"⟩, ⟨"b.pdf", "u/b", "B"⟩]
          [⟨"b.pdf", "u/b", "B"⟩, ⟨"c.pdf", "u/c", "C"⟩])).Nodup :=
  update_memory_doc_merge_idempotent
    [⟨"a.pdf", "u/a", "A"⟩, ⟨"b.pdf", "u/b", "B"⟩]
    [⟨"b.pdf", "u/b", "B"⟩, ⟨"c.pdf", "u/c", "C"⟩]
    (by decide) (by decide)

/-- C3: the full login flow performs at most 2 login attempts; when both
attempts fail verification, no third attempt starts and the second
failure's run-fatal error propagates to the caller. -/
theorem login_attempt_cap (outcome : Nat → AttemptOutcome) :
    (performLogin outcome 2).2 ≤ 2
    ∧ ∀ m1 m2 : String, outcome 1 = .fail m1 → outcome 2 = .fail m2 →
        performLogin outcome 2 = (.error m2, 2) := by
  constructor
  · exact loginGo_attempts_le outcome 2 2 1
  · intro m1 m2 hm1 hm2
    unfold performLogin
    unfold loginGo
    rw [hm1]
    simp only [show ¬ (2 ≤ 1) by omega, if_false]
    unfold loginGo
    rw [hm2]
    simp

theorem login_attempt_cap_witness :
    (performLogin (fun _ => .fail "OTP rejected by IREPS") 2).2 ≤ 2
    ∧ performLogin (fun _ => .fail "OTP rejected by IREPS") 2
        = (.error "OTP rejected by IREPS", 2) :=
  ⟨(login_attempt_cap (fun _ => .fail "OTP rejected by IREPS")).1,
   (login_attempt_cap (fun _ => .fail "OTP rejected by IREPS")).2
     "OTP rejected by IREPS" "OTP rejected by IREPS" rfl rfl⟩

/-- C4: in unattended mode a ticket whose arrival timestamp is at or
before the registration instant recorded by `clear_for_new_otp` never
satisfies the subsequent `wait_for_otp`, while a ticket arriving strictly
after that instant satisfies it even when it arrives before the wait
begins blocking. -/
theorem otp_ticket_freshness (s : OTPState) (otp : String) (td tr : ℚ) :
    (td ≤ tr →
      waitForOtp (clearForNewOtp (deliverOtp s otp td) tr) [] = none)
    ∧ (tr < td →
      waitForOtp (deliverOtp (clearForNewOtp s tr) otp td) [] = some otp) := by
  constructor
  · intro h
    simp [waitForOtp, clearForNewOtp, deliverOtp, not_lt.mpr h]
  · intro h
    simp [waitForOtp, clearForNewOtp, deliverOtp, h]

theorem otp_ticket_freshness_witness :
    waitForOtp (clearForNewOtp (deliverOtp ⟨none, 0, 0, false⟩ "123456" 5) 5) []
      = none
    ∧ waitForOtp (deliverOtp (clearForNewOtp ⟨none, 0, 0, false⟩ 5) "123456" 6) []
      = some "123456" :=
  ⟨(otp_ticket_freshness ⟨none, 0, 0, false⟩ "123456" 5 5).1 (by norm_num),
   (otp_ticket_freshness ⟨none, 0, 0, false⟩ "123456" 6 5).2 (by norm_num)⟩

/-- C8: the enrichment stage aborts the remainder of its record
processing exactly when the count of consecutive per-record failures
reaches the limit of 3; a successful record resets the counter, so
failures that are not consecutive never abort the stage. -/
theorem detail_circuit_breaker :
    (∀ (c : Nat) (os : List RowOutcome) (ts : List Record),
        MAX_CONSECUTIVE_FAILURES ≤ c → processDetails c os ts = ts)
    ∧ (∀ (c : Nat) (detail : List (String × String))
        (docRes : Option (Option String × List Doc))
        (os : List RowOutcome) (t : Record) (ts : List Record),
        c < MAX_CONSECUTIVE_FAILURES →
        processDetails c (.success detail docRes :: os) (t :: ts)
          = applySuccess t detail docRes :: processDetails 0 os ts)
    ∧ (∀ f1 f2 f3 : RowOutcome,
        f1.isFailure = true → f2.isFailure = true → f3.isFailure = true →
        ∀ (os : List RowOutcome) (t1 t2 t3 : Record) (ts : List Record),
        processDetails 0 (f1 :: f2 :: f3 :: os) (t1 :: t2 :: t3 :: ts)
          = applyFailure f1 t1 :: applyFailure f2 t2
              :: applyFailure f3 t3 :: ts)
    ∧ (∀ (os : List RowOutcome) (ts : List Record),
        noTrip 0 os = true →
        processDetails 0 os ts = processAllDetails os ts) := by
  refine ⟨processDetails_stop, ?_, ?_, fun os ts h => processDetails_eq_processAll 0 os ts h⟩
  · intro c detail docRes os t ts hc
    conv_lhs => rw [processDetails]
    rw [if_neg (by omega)]
  · intro f1 f2 f3 h1 h2 h3 os t1 t2 t3 ts
    have hstop := processDetails_stop 3 os ts (by simp [MAX_CONSECUTIVE_FAILURES])
    cases f1 <;> cases f2 <;> cases f3 <;>
      simp_all [RowOutcome.isFailure, processDetails, applyFailure,
        MAX_CONSECUTIVE_FAILURES]

theorem detail_circuit_breaker_witness :
    processDetails 3 [] [[("tender_no", Val.str "T")]]
      = [[("tender_no", Val.str "T")]]
    ∧ processDetails 0 [.success [] none] [[("tender_no", Val.str "T")]]
      = [applySuccess [("tender_no", Val.str "T")] [] none]
    ∧ processDetails 0 [.retriesFailed, .retriesFailed, .retriesFailed]
        [[("tender_no", Val.str "1")], [("tender_no", Val.str "2")],
         [("tender_no", Val.str "3")], [("tender_no", Val.str "4")]]
      = [applyFailure .retriesFailed [("tender_no", Val.str "1")],
         applyFailure .retriesFailed [("tender_no", Val.str "2")],
         applyFailure .retriesFailed [("tender_no", Val.str "3")],
         [("tender_no", Val.str "4")]]
    ∧ processDetails 0 [.retriesFailed, .success [] none, .retriesFailed]
        [[("tender_no", Val.str "1")], [("tender_no", Val.str "2")],
         [("tender_no", Val.str "3")]]
      = processAllDetails [.retriesFailed, .success [] none, .retriesFailed]
          [[("tender_no", Val.str "1")], [("tender_no", Val.str "2")],
           [("tender_no", Val.str "3")]] :=
  ⟨detail_circuit_breaker.1 3 [] _ (by decide),
   by
     have h := detail_circuit_breaker.2.1 0 [] none []
       [("tender_no", Val.str "T")] [] (by decide)
     simpa [processDetails] using h,
   detail_circuit_breaker.2.2.1 .retriesFailed .retriesFailed .retriesFailed
     rfl rfl rfl [] _ _ _ _,
   detail_circuit_breaker.2.2.2 _ _ (by decide)⟩

/-- C2: `scrape_tenders` never discards harvested records: a Phase-2
exception returns the Phase-1 records as-is, and on a completed Phase-2
pass the result has one entry per harvested record, each either a
successfully-enriched record or one whose enrichment fields hold the
defined empty values (`None` primary-document url, empty document list)
rather than being left undefined. -/
theorem scrape_tenders_never_discards (listing : List Record)
    (h : ∀ t ∈ listing, HarvestedFields t) :
    scrapeTenders listing .raised = listing
    ∧ ∀ os : List RowOutcome,
        (scrapeTenders listing (.completed os)).length = listing.length
        ∧ ∀ t' ∈ scrapeTenders listing (.completed os),
            (∃ t ∈ listing, ∃ detail docRes, t' = applySuccess t detail docRes)
            ∨ (rgetD t' "tender_doc_download_url" (.str "") = .null
               ∧ rgetD t' "attached_documents" (.str "") = .docs []) := by
  by_cases hl : listing = []
  · subst hl
    refine ⟨rfl, fun os => ⟨rfl, ?_⟩⟩
    intro t' ht'
    simp [scrapeTenders] at ht'
  · refine ⟨by simp [scrapeTenders, hl], fun os => ?_⟩
    have hshape := processDetails_shape 0 os listing h
    refine ⟨by simpa [scrapeTenders, hl] using hshape.1, ?_⟩
    intro t' ht'
    simp only [scrapeTenders, hl, if_false] at ht'
    exact hshape.2 t' ht'

theorem scrape_tenders_never_discards_witness :
    scrapeTenders
        [[("tender_no", Val.str "T-1"),
          ("tender_doc_download_url", Val.null),
          ("attached_documents", Val.docs [])]] .raised
      = [[("tender_no", Val.str "T-1"),
          ("tender_doc_download_url", Val.null),
          ("attached_documents", Val.docs [])]]
    ∧ (scrapeTenders
        [[("tender_no", Val.str "T-1"),
          ("tender_doc_download_url", Val.null),
          ("attached_documents", Val.docs [])]]
        (.completed [.retriesFailed])).length = 1
    ∧ ((∃ t ∈ [[("tender_no", Val.str "T-1"),
          ("tender_doc_download_url", Val.null),
          ("attached_documents", Val.docs [])]],
          ∃ detail docRes,
            [("tender_no", Val.str "T-1"),
             ("tender_doc_download_url", Val.null),
             ("attached_documents", Val.docs [])]
              = applySuccess t detail docRes)
        ∨ (rgetD [("tender_no", Val.str "T-1"),
            ("tender_doc_download_url", Val.null),
            ("attached_documents", Val.docs [])]
            "tender_doc_download_url" (.str "") = .null
           ∧ rgetD [("tender_no", Val.str "T-1"),
              ("tender_doc_download_url", Val.null),
              ("attached_documents", Val.docs [])]
              "attached_documents" (.str "") = .docs [])) := by
  have h := scrape_tenders_never_discards
    [[("tender_no", Val.str "T-1"),
      ("tender_doc_download_url", Val.null),
      ("attached_documents", Val.docs [])]] (by decide)
  exact ⟨h.1, (h.2 [.retriesFailed]).1,
    (h.2 [.retriesFailed]).2 _ (by decide)⟩

/-- C9 counterexample: a listing row whose status cell is empty is
accepted by `_parse_row_cells` even though the empty string is not one of
the enumerated valid statuses, so "accepted only if the status is in the
valid set" fails as stated. -/
theorem parse_row_status_counterexample :
    (parseRowCells "NR" "2026-NR-001" "Title" "" "Works" "01/01/2026" "5" "").isSome
      = true
    ∧ pyLower "" ∉ VALID_STATUSES := by
  constructor
  · decide
  · decide

/-- C9 (amended): a row whose status is non-empty and, lowercased, not in
the enumerated valid set is rejected (the parser yields nothing); every
accepted row has an empty status or a status in the valid set. -/
theorem parse_row_status_validation
    (deptt tno title status wa dd days durl : String) :
    (status ≠ "" → pyLower status ∉ VALID_STATUSES →
      parseRowCells deptt tno title status wa dd days durl = none)
    ∧ ((parseRowCells deptt tno title status wa dd days durl).isSome = true →
        status = "" ∨ pyLower status ∈ VALID_STATUSES) := by
  constructor
  · intro h1 h2
    unfold parseRowCells
    by_cases ha : tno = ""
    · rw [if_pos ha]
    · rw [if_neg ha]
      by_cases hb : 50 < tno.length ∨ tno.data.contains '\n'
      · rw [if_pos hb]
      · rw [if_neg hb]
        by_cases hc : tno ∈ JUNK_TENDER_NOS
        · rw [if_pos hc]
        · rw [if_neg hc, if_pos ⟨h1, h2⟩]
  · intro h
    by_cases h1 : status = ""
    · exact Or.inl h1
    · by_cases h2 : pyLower status ∈ VALID_STATUSES
      · exact Or.inr h2
      · exfalso
        unfold parseRowCells at h
        by_cases ha : tno = ""
        · rw [if_pos ha] at h; simp at h
        · rw [if_neg ha] at h
          by_cases hb : 50 < tno.length ∨ tno.data.contains '\n'
          · rw [if_pos hb] at h; simp at h
          · rw [if_neg hb] at h
            by_cases hc : tno ∈ JUNK_TENDER_NOS
            · rw [if_pos hc] at h; simp at h
            · rw [if_neg hc, if_pos ⟨h1, h2⟩] at h; simp at h

theorem parse_row_status_validation_witness :
    parseRowCells "NR" "2026-NR-001" "Title" "Weird" "Works" "01/01/2026" "5" ""
      = none :=
  (parse_row_status_validation "NR" "2026-NR-001" "Title" "Weird" "Works"
    "01/01/2026" "5" "").1 (by decide) (by decide)

/-- The stored identity value is a string, as the harvester produces
    (a non-string identity would raise on `.strip()` in the source, so
    record lists feeding `detect_changes` have string identities). -/
def isStrVal : Val → Bool
  | .str _ => true
  | _ => false

def strTenderNo (t : Record) : Bool :=
  isStrVal (rgetD t "tender_no" (.str ""))

theorem classifyStep_status_changed (mem : Memory) (t old : Record)
    (hno : tenderNo t ≠ "") (hmem : memLookup mem (tenderNo t) = some old)
    (hdne : diff old t ≠ [])
    (hst : ((diff old t).map (fun c => c.1)).contains "status" = true) :
    classifyStep mem t
      = (rset (rset (rset t "_change_type" (.str "STATUS_CHANGED"))
          "_old_status" (rgetD old "status" (.str "")))
          "_new_status" (rgetD t "status" (.str "")),
         .isStatusChanged) := by
  unfold classifyStep
  rw [if_neg hno]
  split
  · next heq => rw [hmem] at heq; cases heq
  · next old2 heq =>
    rw [hmem] at heq
    injection heq with hoo
    subst hoo
    rw [if_neg hdne, if_pos hst]

theorem classifyStep_unchanged (mem : Memory) (t old : Record)
    (hno : tenderNo t ≠ "") (hmem : memLookup mem (tenderNo t) = some old)
    (hdiff : diff old t = []) :
    classifyStep mem t
      = (rset t "_change_type" (.str "UNCHANGED"), .isUnchanged) := by
  unfold classifyStep
  rw [if_neg hno]
  split
  · next heq => rw [hmem] at heq; cases heq
  · next old2 heq =>
    rw [hmem] at heq
    injection heq with hoo
    subst hoo
    rw [if_pos hdiff]

/-- C1: for every record whose identity is present in the snapshot and
whose trim-normalized field diff contains the status field,
`detect_changes` classifies the record as STATUS_CHANGED (never UPDATED),
regardless of how many other fields also differ, and the report entry
carries both the old and the new status values. -/
theorem detect_status_change_precedence (mem : Memory) (now : String)
    (ts : List Record) (t old : Record)
    (hstr : ∀ u ∈ ts, strTenderNo u = true)
    (ht : t ∈ ts)
    (hno : tenderNo t ≠ "")
    (hmem : memLookup mem (tenderNo t) = some old)
    (hst : "status" ∈ (diff old t).map (fun c => c.1)) :
    rgetD (classifyStep mem t).1 "_change_type" (.str "")
      = .str "STATUS_CHANGED"
    ∧ (classifyStep mem t).1 ∈ (detectChanges mem now ts).rstatusChanged
    ∧ (classifyStep mem t).1 ∉ (detectChanges mem now ts).rupdated
    ∧ rgetD (classifyStep mem t).1 "_old_status" (.str "")
        = rgetD old "status" (.str "")
    ∧ rgetD (classifyStep mem t).1 "_new_status" (.str "")
        = rgetD t "status" (.str "") := by
  have hdne : diff old t ≠ [] := by
    intro hnil
    rw [hnil] at hst
    simp at hst
  have hcontains : ((diff old t).map (fun c => c.1)).contains "status" = true := by
    simpa using hst
  have hcs := classifyStep_status_changed mem t old hno hmem hdne hcontains
  have htag2 : (classifyStep mem t).2 = .isStatusChanged := by rw [hcs]
  have hb := mem_bucketOfTag_of_classify mem ts t ht (by rw [htag2]; simp)
  rw [htag2] at hb
  refine ⟨?_, hb, ?_, ?_, ?_⟩
  · simp only [hcs]
    rw [rgetD_rset_ne _ _ _ _ _
        (show ("_change_type" : String) ≠ "_new_status" by decide),
      rgetD_rset_ne _ _ _ _ _
        (show ("_change_type" : String) ≠ "_old_status" by decide),
      rgetD_rset_self]
  · intro hin
    exact buckets_disjoint mem ts .isStatusChanged .isUpdated
      (by simp) (by simp) (by simp) (classifyStep mem t).1 ⟨hb, hin⟩
  · simp only [hcs]
    rw [rgetD_rset_ne _ _ _ _ _
        (show ("_old_status" : String) ≠ "_new_status" by decide),
      rgetD_rset_self]
  · simp only [hcs]
    rw [rgetD_rset_self]

theorem detect_status_change_precedence_witness :
    rgetD (classifyStep
        [("T-1", [("tender_no", Val.str "T-1"), ("status", Val.str "Active")])]
        [("tender_no", Val.str "T-1"), ("status", Val.str "Closed")]).1
      "_change_type" (.str "") = .str "STATUS_CHANGED"
    ∧ (classifyStep
        [("T-1", [("tender_no", Val.str "T-1"), ("status", Val.str "Active")])]
        [("tender_no", Val.str "T-1"), ("status", Val.str "Closed")]).1
      ∈ (detectChanges
          [("T-1", [("tender_no", Val.str "T-1"), ("status", Val.str "Active")])]
          "2026-02-03" [[("tender_no", Val.str "T-1"), ("status", Val.str "Closed")]]).rstatusChanged
    ∧ (classifyStep
        [("T-1", [("tender_no", Val.str "T-1"), ("status", Val.str "Active")])]
        [("tender_no", Val.str "T-1"), ("status", Val.str "Closed")]).1
      ∉ (detectChanges
          [("T-1", [("tender_no", Val.str "T-1"), ("status", Val.str "Active")])]
          "2026-02-03" [[("tender_no", Val.str "T-1"), ("status", Val.str "Closed")]]).rupdated
    ∧ rgetD (classifyStep
        [("T-1", [("tender_no", Val.str "T-1"), ("status", Val.str "Active")])]
        [("tender_no", Val.str "T-1"), ("status", Val.str "Closed")]).1
      "_old_status" (.str "")
        = rgetD [("tender_no", Val.str "T-1"), ("status", Val.str "Active")]
            "status" (.str "")
    ∧ rgetD (classifyStep
        [("T-1", [("tender_no", Val.str "T-1"), ("status", Val.str "Active")])]
        [("tender_no", Val.str "T-1"), ("status", Val.str "Closed")]).1
      "_new_status" (.str "")
        = rgetD [("tender_no", Val.str "T-1"), ("status", Val.str "Closed")]
            "status" (.str "") :=
  detect_status_change_precedence
    [("T-1", [("tender_no", Val.str "T-1"), ("status", Val.str "Active")])]
    "2026-02-03"
    [[("tender_no", Val.str "T-1"), ("status", Val.str "Closed")]]
    [("tender_no", Val.str "T-1"), ("status", Val.str "Closed")]
    [("tender_no", Val.str "T-1"), ("status", Val.str "Active")]
    (by decide) (by decide) (by decide) (by decide) (by decide)

/-- The record appears in one of the report's four buckets and in no
    second one. -/
def InExactlyOneBucket (r : Report) (x : Record) : Prop :=
  (x ∈ r.rnew ∨ x ∈ r.rupdated ∨ x ∈ r.rstatusChanged ∨ x ∈ r.runchanged)
  ∧ ¬ (x ∈ r.rnew ∧ x ∈ r.rupdated)
  ∧ ¬ (x ∈ r.rnew ∧ x ∈ r.rstatusChanged)
  ∧ ¬ (x ∈ r.rnew ∧ x ∈ r.runchanged)
  ∧ ¬ (x ∈ r.rupdated ∧ x ∈ r.rstatusChanged)
  ∧ ¬ (x ∈ r.rupdated ∧ x ∈ r.runchanged)
  ∧ ¬ (x ∈ r.rstatusChanged ∧ x ∈ r.runchanged)

/-- C6 counterexample: a record whose `tender_no` is blank after
stripping is counted in the summary total but lands in none of the four
buckets, so `detect_changes` does not partition arbitrary input into the
buckets as claimed. -/
theorem detect_changes_partition_counterexample :
    (detectChanges [] "t0" [[("tender_no", Val.str " ")]]).summary.total_scraped = 1
    ∧ (detectChanges [] "t0" [[("tender_no", Val.str " ")]]).rnew = []
    ∧ (detectChanges [] "t0" [[("tender_no", Val.str " ")]]).rupdated = []
    ∧ (detectChanges [] "t0" [[("tender_no", Val.str " ")]]).rstatusChanged = []
    ∧ (detectChanges [] "t0" [[("tender_no", Val.str " ")]]).runchanged = []
    ∧ (detectChanges [] "t0" [[("tender_no", Val.str " ")]]).rall
        = [[("tender_no", Val.str " ")]] := by
  decide

/-- C6 (amended): `detect_changes` partitions the records with a
non-blank trimmed identity into the four buckets — each such record's
classified form appears in exactly one bucket, and the bucket sizes sum
to the number of such records — while records with a blank or missing
identity are skipped (they appear in no bucket); the summary's per-bucket
counts equal the bucket sizes, its total equals the full input length,
and it carries the timestamp. -/
theorem detect_changes_partition_amended (mem : Memory) (now : String)
    (ts : List Record) (hstr : ∀ u ∈ ts, strTenderNo u = true) :
    (detectChanges mem now ts).summary.total_scraped = ts.length
    ∧ (detectChanges mem now ts).summary.new_count
        = (detectChanges mem now ts).rnew.length
    ∧ (detectChanges mem now ts).summary.updated_count
        = (detectChanges mem now ts).rupdated.length
    ∧ (detectChanges mem now ts).summary.status_changed_count
        = (detectChanges mem now ts).rstatusChanged.length
    ∧ (detectChanges mem now ts).summary.unchanged_count
        = (detectChanges mem now ts).runchanged.length
    ∧ (detectChanges mem now ts).summary.timestamp = now
    ∧ (detectChanges mem now ts).rnew.length
        + (detectChanges mem now ts).rupdated.length
        + (detectChanges mem now ts).rstatusChanged.length
        + (detectChanges mem now ts).runchanged.length
        = (ts.filter (fun t => tenderNo t ≠ "")).length
    ∧ ∀ t ∈ ts, tenderNo t ≠ "" →
        InExactlyOneBucket (detectChanges mem now ts) (classifyStep mem t).1 := by
  refine ⟨rfl, rfl, rfl, rfl, rfl, rfl, detectLoop_length_sum mem ts, ?_⟩
  intro t ht hno
  have hsk : (classifyStep mem t).2 ≠ .skipped := fun hh =>
    hno ((classifyStep_skipped_iff mem t).mp hh)
  have hb := mem_bucketOfTag_of_classify mem ts t ht hsk
  refine ⟨?_,
    buckets_disjoint mem ts .isNew .isUpdated (by simp) (by simp) (by simp) _,
    buckets_disjoint mem ts .isNew .isStatusChanged (by simp) (by simp) (by simp) _,
    buckets_disjoint mem ts .isNew .isUnchanged (by simp) (by simp) (by simp) _,
    buckets_disjoint mem ts .isUpdated .isStatusChanged (by simp) (by simp) (by simp) _,
    buckets_disjoint mem ts .isUpdated .isUnchanged (by simp) (by simp) (by simp) _,
    buckets_disjoint mem ts .isStatusChanged .isUnchanged (by simp) (by simp) (by simp) _⟩
  rcases htag : (classifyStep mem t).2
  · exact absurd htag hsk
  · rw [htag] at hb; exact Or.inl hb
  · rw [htag] at hb; exact Or.inr (Or.inl hb)
  · rw [htag] at hb; exact Or.inr (Or.inr (Or.inl hb))
  · rw [htag] at hb; exact Or.inr (Or.inr (Or.inr hb))

theorem detect_changes_partition_amended_witness :
    (detectChanges [] "t0"
        [[("tender_no", Val.str "T-1"), ("status", Val.str "Active")]]).summary.total_scraped = 1
    ∧ InExactlyOneBucket
        (detectChanges [] "t0"
          [[("tender_no", Val.str "T-1"), ("status", Val.str "Active")]])
        (classifyStep [] [("tender_no", Val.str "T-1"), ("status", Val.str "Active")]).1 := by
  have h := detect_changes_partition_amended [] "t0"
    [[("tender_no", Val.str "T-1"), ("status", Val.str "Active")]] (by decide)
  exact ⟨h.1, h.2.2.2.2.2.2.2
    [("tender_no", Val.str "T-1"), ("status", Val.str "Active")]
    (List.mem_singleton.mpr rfl) (by decide)⟩

/-- C7: a record present in the snapshot whose every comparable field
(internal and navigation-only fields excluded) equals the snapshot
entry's value after trim-normalization of both sides is classified
UNCHANGED. -/
theorem detect_unchanged_on_equal_fields (mem : Memory) (now : String)
    (ts : List Record) (t old : Record)
    (hstr : ∀ u ∈ ts, strTenderNo u = true)
    (ht : t ∈ ts)
    (hno : tenderNo t ≠ "")
    (hmem : memLookup mem (tenderNo t) = some old)
    (heq : ∀ k : String, pyStartsWith k "_" = false → k ≠ "detail_url" →
      pyStrip (pyStr (rgetD old k (.str "")))
        = pyStrip (pyStr (rgetD t k (.str "")))) :
    rgetD (classifyStep mem t).1 "_change_type" (.str "") = .str "UNCHANGED"
    ∧ (classifyStep mem t).1 ∈ (detectChanges mem now ts).runchanged := by
  have hdiff := diff_eq_nil_of_trim_eq old t heq
  have hcs := classifyStep_unchanged mem t old hno hmem hdiff
  have htag2 : (classifyStep mem t).2 = .isUnchanged := by rw [hcs]
  have hb := mem_bucketOfTag_of_classify mem ts t ht (by rw [htag2]; simp)
  rw [htag2] at hb
  refine ⟨?_, hb⟩
  simp only [hcs]
  rw [rgetD_rset_self]

theorem detect_unchanged_on_equal_fields_witness :
    rgetD (classifyStep
        [("T-1", [("tender_no", Val.str "T-1"), ("status", Val.str "Active")])]
        [("tender_no", Val.str "T-1"), ("status", Val.str "Active")]).1
      "_change_type" (.str "") = .str "UNCHANGED"
    ∧ (classifyStep
        [("T-1", [("tender_no", Val.str "T-1"), ("status", Val.str "Active")])]
        [("tender_no", Val.str "T-1"), ("status", Val.str "Active")]).1
      ∈ (detectChanges
          [("T-1", [("tender_no", Val.str "T-1"), ("status", Val.str "Active")])]
          "t0"
          [[("tender_no", Val.str "T-1"), ("status", Val.str "Active")]]).runchanged :=
  detect_unchanged_on_equal_fields
    [("T-1", [("tender_no", Val.str "T-1"), ("status", Val.str "Active")])]
    "t0"
    [[("tender_no", Val.str "T-1"), ("status", Val.str "Active")]]
    [("tender_no", Val.str "T-1"), ("status", Val.str "Active")]
    [("tender_no", Val.str "T-1"), ("status", Val.str "Active")]
    (by decide) (by decide) (by decide) (by decide)
    (fun k _ _ => rfl)

/-- C10: `detect_changes` annotates the records in place — every
classified record receives a `_change_type` key (plus
`_old_status`/`_new_status` for STATUS_CHANGED and a `_changes` map for
UPDATED), skipped records are untouched, the report's `all` entry is the
caller's record list after these in-place annotations, and every bucket
entry is one of those same records. -/
theorem detect_changes_mutates_in_place (mem : Memory) (now : String)
    (ts : List Record) (hstr : ∀ u ∈ ts, strTenderNo u = true) :
    (detectChanges mem now ts).rall
      = ts.map (fun t => (classifyStep mem t).1)
    ∧ (∀ t ∈ ts, tenderNo t = "" → (classifyStep mem t).1 = t)
    ∧ (∀ t ∈ ts, tenderNo t ≠ "" →
        hasKey (classifyStep mem t).1 "_change_type" = true
        ∧ (rgetD (classifyStep mem t).1 "_change_type" (.str "")
              = .str "STATUS_CHANGED" →
            hasKey (classifyStep mem t).1 "_old_status" = true
            ∧ hasKey (classifyStep mem t).1 "_new_status" = true)
        ∧ (rgetD (classifyStep mem t).1 "_change_type" (.str "")
              = .str "UPDATED" →
            ∃ cs, rget? (classifyStep mem t).1 "_changes"
              = some (.changeMap cs)))
    ∧ (∀ x : Record,
        (x ∈ (detectChanges mem now ts).rnew
          ∨ x ∈ (detectChanges mem now ts).rupdated
          ∨ x ∈ (detectChanges mem now ts).rstatusChanged
          ∨ x ∈ (detectChanges mem now ts).runchanged)
        → x ∈ (detectChanges mem now ts).rall) := by
  refine ⟨detectLoop_ball mem ts, ?_, ?_, ?_⟩
  · intro t _ h0
    simp [classifyStep, h0]
  · intro t _ hno
    unfold classifyStep
    rw [if_neg hno]
    split
    · refine ⟨hasKey_rset_self _ _ _, ?_, ?_⟩
      · intro habs
        rw [rgetD_rset_self] at habs
        exact absurd (Val.str.inj habs) (by decide)
      · intro habs
        rw [rgetD_rset_self] at habs
        exact absurd (Val.str.inj habs) (by decide)
    · dsimp only
      split
      · refine ⟨hasKey_rset_self _ _ _, ?_, ?_⟩
        · intro habs
          rw [rgetD_rset_self] at habs
          exact absurd (Val.str.inj habs) (by decide)
        · intro habs
          rw [rgetD_rset_self] at habs
          exact absurd (Val.str.inj habs) (by decide)
      · split
        · refine ⟨?_, ?_, ?_⟩
          · exact hasKey_rset_preserve _ _ _ _
              (hasKey_rset_preserve _ _ _ _ (hasKey_rset_self _ _ _))
          · intro _
            exact ⟨hasKey_rset_preserve _ _ _ _ (hasKey_rset_self _ _ _),
              hasKey_rset_self _ _ _⟩
          · intro habs
            rw [rgetD_rset_ne _ _ _ _ _
                (show ("_change_type" : String) ≠ "_new_status" by decide),
              rgetD_rset_ne _ _ _ _ _
                (show ("_change_type" : String) ≠ "_old_status" by decide),
              rgetD_rset_self] at habs
            exact absurd (Val.str.inj habs) (by decide)
        · refine ⟨?_, ?_, ?_⟩
          · exact hasKey_rset_preserve _ _ _ _ (hasKey_rset_self _ _ _)
          · intro habs
            rw [rgetD_rset_ne _ _ _ _ _
                (show ("_change_type" : String) ≠ "_changes" by decide),
              rgetD_rset_self] at habs
            exact absurd (Val.str.inj habs) (by decide)
          · intro _
            exact ⟨_, rget?_rset_self _ _ _⟩
  · intro x hx
    show x ∈ (detectLoop mem ts).ball
    rw [detectLoop_ball]
    have hget : ∃ tag, tag ≠ BucketTag.skipped
        ∧ x ∈ bucketOfTag (detectLoop mem ts) tag := by
      rcases hx with h | h | h | h
      · exact ⟨.isNew, by simp, h⟩
      · exact ⟨.isUpdated, by simp, h⟩
      · exact ⟨.isStatusChanged, by simp, h⟩
      · exact ⟨.isUnchanged, by simp, h⟩
    rcases hget with ⟨tag, htag, hmem2⟩
    rcases of_mem_bucketOfTag mem ts tag x htag hmem2 with ⟨t, htm, hct⟩
    exact List.mem_map.mpr ⟨t, htm, by rw [hct]⟩

theorem detect_changes_mutates_in_place_witness :
    (detectChanges [] "t0" [[("tender_no", Val.str "T-1")]]).rall
      = [[("tender_no", Val.str "T-1")]].map
          (fun t => (classifyStep [] t).1)
    ∧ hasKey (classifyStep [] [("tender_no", Val.str "T-1")]).1
        "_change_type" = true := by
  have h := detect_changes_mutates_in_place [] "t0"
    [[("tender_no", Val.str "T-1")]] (by decide)
  exact ⟨h.1, (h.2.2.1 [("tender_no", Val.str "T-1")]
    (List.mem_singleton.mpr rfl) (by decide)).1⟩

end Ireps
